import Mathlib

/-!
Verification development for the OpenAI-compatible chat client
(src/app/clients/openai_compatible_client.py).

The development shallowly embeds the client's three operations:

* the transport executor (python method named with a leading underscore,
  rendered here as make_request): status check, error wrapping, chunk yielding;
* the stream decoder inside stream_chat: per-chunk UTF-8 decoding with
  undecodable bytes dropped, newline framing over a string buffer,
  per-line SSE processing, and the end-of-stream flush;
* the one-shot chat operation: drain, strict UTF-8 decode, JSON parse,
  error wrapping.

Python strings are embedded as List Char (one element per code point),
bytes as List Nat, and JSON documents as the inductive type Json.  The
python calls json.loads, str.strip, str.startswith, bytes.decode and the
dynamic operations used by the shape check (the in operator, len,
subscription, truthiness) are embedded by functions that follow CPython
semantics on the fragments of behaviour the client exercises.
-/

namespace OpenAIClient

/-! ### UTF-8 encoding and decoding

CPython's bytes.decode("utf-8", errors="ignore") walks the byte string,
emitting a code point for every well-formed sequence and skipping the
maximal ill-formed subsequence on error, never raising; a byte that is
not a valid continuation of a pending sequence drops the pending prefix
and is reconsidered as a fresh lead byte, and a sequence truncated by the
end of input is dropped.  The strict form used by chat
(bytes.decode("utf-8")) fails on the first ill-formed sequence.  Both
are embedded as a byte-driven automaton; the continuation ranges match
CPython (overlong forms, surrogates and values above 0x10FFFF rejected).
-/

/-- Decoder state: none when expecting a lead byte, otherwise the
accumulated scalar value, the number of continuation bytes still needed,
and the admissible range for the next byte. -/
def Utf8State := Option (Nat × Nat × Nat × Nat)

/-- Low end of the admissible second byte of a 3-byte sequence. -/
def cont3lo (b1 : Nat) : Nat := if b1 = 0xE0 then 0xA0 else 0x80
/-- High end of the admissible second byte of a 3-byte sequence. -/
def cont3hi (b1 : Nat) : Nat := if b1 = 0xED then 0x9F else 0xBF

/-- Low end of the admissible second byte of a 4-byte sequence. -/
def cont4lo (b1 : Nat) : Nat := if b1 = 0xF0 then 0x90 else 0x80
/-- High end of the admissible second byte of a 4-byte sequence. -/
def cont4hi (b1 : Nat) : Nat := if b1 = 0xF4 then 0x8F else 0xBF

/-- Consume one byte in the lead position.  Invalid lead bytes emit
nothing (they are the ill-formed subsequence to skip). -/
def utf8StepLead (b : Nat) : Utf8State × Option Char :=
  if b < 0x80 then (none, some (Char.ofNat b))
  else if 0xC2 ≤ b && b ≤ 0xDF then (some (b - 0xC0, 1, 0x80, 0xBF), none)
  else if 0xE0 ≤ b && b ≤ 0xEF then (some (b - 0xE0, 2, cont3lo b, cont3hi b), none)
  else if 0xF0 ≤ b && b ≤ 0xF4 then (some (b - 0xF0, 3, cont4lo b, cont4hi b), none)
  else (none, none)

/-- Consume one byte.  A byte outside the admissible continuation range
drops the pending prefix and is reconsidered as a lead byte, as CPython's
ignore handler does. -/
def utf8Step : Utf8State → Nat → Utf8State × Option Char
  | none, b => utf8StepLead b
  | some (acc, need, lo, hi), b =>
    if lo ≤ b && b ≤ hi then
      if need = 1 then (none, some (Char.ofNat (acc * 64 + (b - 0x80))))
      else (some (acc * 64 + (b - 0x80), need - 1, 0x80, 0xBF), none)
    else
      utf8StepLead b

/-- Run the decoder with the ignore handler; a pending truncated
sequence at end of input is dropped. -/
def utf8Run : Utf8State → List Nat → List Char
  | _, [] => []
  | st, b :: bs =>
    match utf8Step st b with
    | (st2, some c) => c :: utf8Run st2 bs
    | (st2, none) => utf8Run st2 bs

/-- bytes.decode("utf-8", errors="ignore"): total, skips ill-formed
subsequences. -/
def utf8DecodeIgnore (bs : List Nat) : List Char := utf8Run none bs

/-- Run the strict decoder: any ill-formed byte, and a truncated
sequence at end of input, fail the whole decode. -/
def utf8RunStrict : Utf8State → List Nat → Option (List Char)
  | none, [] => some []
  | some _, [] => none
  | none, b :: bs =>
    match utf8StepLead b with
    | (none, some c) => (utf8RunStrict none bs).map (c :: ·)
    | (some st2, none) => utf8RunStrict (some st2) bs
    | _ => none
  | some (acc, need, lo, hi), b :: bs =>
    if lo ≤ b && b ≤ hi then
      if need = 1 then (utf8RunStrict none bs).map (Char.ofNat (acc * 64 + (b - 0x80)) :: ·)
      else utf8RunStrict (some (acc * 64 + (b - 0x80), need - 1, 0x80, 0xBF)) bs
    else none

/-- bytes.decode("utf-8") with the default strict handler: none models a
raised UnicodeDecodeError. -/
def utf8DecodeStrict (bs : List Nat) : Option (List Char) := utf8RunStrict none bs

/-- UTF-8 encoding of one unicode scalar value. -/
def utf8EncodeChar (n : Nat) : List Nat :=
  if n < 0x80 then [n]
  else if n < 0x800 then [0xC0 + n / 64, 0x80 + n % 64]
  else if n < 0x10000 then
    [0xE0 + n / 4096, 0x80 + (n / 64) % 64, 0x80 + n % 64]
  else
    [0xF0 + n / 262144, 0x80 + (n / 4096) % 64, 0x80 + (n / 64) % 64, 0x80 + n % 64]

/-- UTF-8 encoding of a string given as code points. -/
def utf8Encode (s : List Char) : List Nat :=
  (s.map (fun c => utf8EncodeChar c.toNat)).flatten

/-! ### JSON documents and json.loads

Python json documents.  Integers are num; floats keep their decimal
mantissa and exponent (fnum m e stands for m times ten to the e), which
suffices for the only float observations the client makes: truthiness
and being carried verbatim.  json.loads also accepts the non-standard
constants NaN, Infinity and -Infinity by default, embedded as nan and
inf.  Object keys are strings; duplicate keys overwrite in place as in a
python dict. -/
inductive Json where
  | null : Json
  | bool (b : Bool) : Json
  | num (n : Int) : Json
  | fnum (m : Int) (e : Int) : Json
  | str (s : List Char) : Json
  | arr (xs : List Json) : Json
  | obj (kvs : List (List Char × Json)) : Json
  | nan : Json
  | inf (neg : Bool) : Json

/-- JSON whitespace, the set json.loads skips between tokens. -/
def isJsonWs (c : Char) : Bool := c = ' ' || c = '\t' || c = '\n' || c = '\r'

/-- Skip JSON whitespace. -/
def skipWs (s : List Char) : List Char := s.dropWhile isJsonWs

/-- Dict insertion: a duplicate key overwrites in place, as in python. -/
def insertKV (kvs : List (List Char × Json)) (k : List Char) (v : Json) :
    List (List Char × Json) :=
  if kvs.any (fun p => p.1 == k) then
    kvs.map (fun p => if p.1 == k then (k, v) else p)
  else
    kvs ++ [(k, v)]

/-- Dict lookup. -/
def dictLookup (kvs : List (List Char × Json)) (k : List Char) : Option Json :=
  (kvs.find? (fun p => p.1 == k)).map (fun p => p.2)

/-- Value of a hex digit, if any. -/
def hexVal (c : Char) : Option Nat :=
  let n := c.toNat
  if 48 ≤ n && n ≤ 57 then some (n - 48)
  else if 97 ≤ n && n ≤ 102 then some (n - 87)
  else if 65 ≤ n && n ≤ 70 then some (n - 55)
  else none

/-- Four hex digits, as after a backslash-u escape. -/
def parseHex4 : List Char → Option (Nat × List Char)
  | c1 :: c2 :: c3 :: c4 :: rest =>
    match hexVal c1, hexVal c2, hexVal c3, hexVal c4 with
    | some h1, some h2, some h3, some h4 =>
      some (((h1 * 16 + h2) * 16 + h3) * 16 + h4, rest)
    | _, _, _, _ => none
  | _ => none

/-- Decimal digit test. -/
def isDigitCh (c : Char) : Bool := 48 ≤ c.toNat && c.toNat ≤ 57

/-- Value of a digit string. -/
def digitsVal (ds : List Char) : Nat :=
  ds.foldl (fun acc c => 10 * acc + (c.toNat - 48)) 0

/-- The body of a JSON string literal, after the opening quote, with the
standard escapes.  A backslash-u escape yields its code point; a high
surrogate followed by a backslash-u low surrogate yields the combined
code point.  An unpaired surrogate is modelled as a parse failure (the
embedding's strings cannot carry lone surrogates; no claim exercises
them).  Unescaped control characters below 0x20 are rejected as in the
default strict mode. -/
def parseStrBody : Nat → List Char → Option (List Char × List Char)
  | 0, _ => none
  | _ + 1, [] => none
  | fuel + 1, c :: rest =>
    if c = '"' then some ([], rest)
    else if c = '\\' then
      match rest with
      | [] => none
      | e :: r2 =>
        if e = '"' then (parseStrBody fuel r2).map (fun p => ('"' :: p.1, p.2))
        else if e = '\\' then (parseStrBody fuel r2).map (fun p => ('\\' :: p.1, p.2))
        else if e = '/' then (parseStrBody fuel r2).map (fun p => ('/' :: p.1, p.2))
        else if e = 'b' then (parseStrBody fuel r2).map (fun p => ('\x08' :: p.1, p.2))
        else if e = 'f' then (parseStrBody fuel r2).map (fun p => ('\x0c' :: p.1, p.2))
        else if e = 'n' then (parseStrBody fuel r2).map (fun p => ('\n' :: p.1, p.2))
        else if e = 'r' then (parseStrBody fuel r2).map (fun p => ('\r' :: p.1, p.2))
        else if e = 't' then (parseStrBody fuel r2).map (fun p => ('\t' :: p.1, p.2))
        else if e = 'u' then
          match parseHex4 r2 with
          | none => none
          | some (n, r3) =>
            if 0xD800 ≤ n && n ≤ 0xDBFF then
              match r3 with
              | '\\' :: 'u' :: r4 =>
                match parseHex4 r4 with
                | some (n2, r5) =>
                  if 0xDC00 ≤ n2 && n2 ≤ 0xDFFF then
                    (parseStrBody fuel r5).map
                      (fun p =>
                        (Char.ofNat (0x10000 + (n - 0xD800) * 1024 + (n2 - 0xDC00)) :: p.1,
                          p.2))
                  else none
                | none => none
              | _ => none
            else if 0xDC00 ≤ n && n ≤ 0xDFFF then none
            else (parseStrBody fuel r3).map (fun p => (Char.ofNat n :: p.1, p.2))
        else none
    else if c.toNat < 0x20 then none
    else (parseStrBody fuel rest).map (fun p => (c :: p.1, p.2))

/-- A JSON number, following the scanner regex: an optional minus sign,
an integer part without leading zeros, then optional fraction and
exponent parts.  The regex is maximal-munch; trailing characters that do
not extend the match are left in the remainder. -/
def parseNum (s : List Char) : Option (Json × List Char) :=
  let (negSign, s1) :=
    match s with
    | '-' :: r => (true, r)
    | _ => (false, s)
  match s1 with
  | [] => none
  | d :: _ =>
    if ¬ isDigitCh d then none
    else
      let (intDigits, r2) :=
        if d = '0' then (['0'], s1.drop 1)
        else (s1.takeWhile isDigitCh, s1.dropWhile isDigitCh)
      let (fracDigits, r3) :=
        match r2 with
        | '.' :: rf =>
          let ds := rf.takeWhile isDigitCh
          if ds.isEmpty then ([], r2) else (ds, rf.dropWhile isDigitCh)
        | _ => ([], r2)
      let (expVal, hasExp, r4) :=
        match r3 with
        | e :: re =>
          if e = 'e' || e = 'E' then
            let (eneg, re2) :=
              match re with
              | '+' :: rr => (false, rr)
              | '-' :: rr => (true, rr)
              | _ => (false, re)
            let ds := re2.takeWhile isDigitCh
            if ds.isEmpty then ((0 : Int), false, r3)
            else
              (if eneg then -(digitsVal ds : Int) else (digitsVal ds : Int), true,
                re2.dropWhile isDigitCh)
          else ((0 : Int), false, r3)
        | [] => ((0 : Int), false, r3)
      if fracDigits.isEmpty && ¬ hasExp then
        let v : Int := digitsVal intDigits
        some (.num (if negSign then -v else v), r2)
      else
        let m : Int := digitsVal (intDigits ++ fracDigits)
        some (.fnum (if negSign then -m else m) (expVal - fracDigits.length), r4)

mutual

/-- One JSON value, skipping leading whitespace, per json.loads with its
default settings (including the NaN and Infinity constants). -/
def parseVal : Nat → List Char → Option (Json × List Char)
  | 0, _ => none
  | fuel + 1, s =>
    match skipWs s with
    | [] => none
    | c :: rest =>
      if c = '\x7b' then
        match skipWs rest with
        | '\x7d' :: r => some (.obj [], r)
        | r => parseMembers fuel r []
      else if c = '[' then
        match skipWs rest with
        | ']' :: r => some (.arr [], r)
        | r => parseItems fuel r []
      else if c = '"' then
        (parseStrBody (rest.length + 1) rest).map (fun p => (.str p.1, p.2))
      else if c = 't' then
        if ['r', 'u', 'e'].isPrefixOf rest then some (.bool true, rest.drop 3) else none
      else if c = 'f' then
        if ['a', 'l', 's', 'e'].isPrefixOf rest then some (.bool false, rest.drop 4)
        else none
      else if c = 'n' then
        if ['u', 'l', 'l'].isPrefixOf rest then some (.null, rest.drop 3) else none
      else if c = 'N' then
        if ['a', 'N'].isPrefixOf rest then some (.nan, rest.drop 2) else none
      else if c = 'I' then
        if ['n', 'f', 'i', 'n', 'i', 't', 'y'].isPrefixOf rest then
          some (.inf false, rest.drop 7)
        else none
      else if c = '-' && ['I', 'n', 'f', 'i', 'n', 'i', 't', 'y'].isPrefixOf rest then
        some (.inf true, rest.drop 8)
      else parseNum (c :: rest)

/-- The members of a JSON object, positioned after the opening brace
(and past any whitespace), knowing the object is non-empty. -/
def parseMembers : Nat → List Char → List (List Char × Json) →
    Option (Json × List Char)
  | 0, _, _ => none
  | fuel + 1, s, acc =>
    match s with
    | '"' :: rest =>
      match parseStrBody (rest.length + 1) rest with
      | none => none
      | some (key, r1) =>
        match skipWs r1 with
        | ':' :: r2 =>
          match parseVal fuel r2 with
          | none => none
          | some (v, r3) =>
            let acc2 := insertKV acc key v
            match skipWs r3 with
            | ',' :: r4 => parseMembers fuel (skipWs r4) acc2
            | '\x7d' :: r4 => some (.obj acc2, r4)
            | _ => none
        | _ => none
    | _ => none

/-- The items of a JSON array, positioned after the opening bracket,
knowing the array is non-empty. -/
def parseItems : Nat → List Char → List Json → Option (Json × List Char)
  | 0, _, _ => none
  | fuel + 1, s, acc =>
    match parseVal fuel s with
    | none => none
    | some (v, r) =>
      match skipWs r with
      | ',' :: r2 => parseItems fuel r2 (acc ++ [v])
      | ']' :: r2 => some (.arr (acc ++ [v]), r2)
      | _ => none

end

/-- json.loads: one document, with nothing but whitespace allowed after
it; none models a raised json.JSONDecodeError. -/
def json_loads (s : List Char) : Option Json :=
  match parseVal (2 * s.length + 4) s with
  | some (j, r) => if skipWs r = [] then some j else none
  | none => none

/-! ### Python dynamic operations used by the shape check

The shape check at lines 145-152 applies the in operator, len,
subscription and truthiness to values of unknown runtime type.  These
are embedded with CPython semantics: the in operator on a dict tests
keys, on a list tests element equality, on a str tests substring, and on
any other value raises TypeError; len and subscription similarly raise
on unsupported types.  TypeError, KeyError and IndexError are all merged
into one typeError constructor: the client never distinguishes them (any
of them escapes the json.JSONDecodeError handler). -/

/-- Python exceptions reaching the client code.  Exceptions whose message
the claims never inspect carry no payload; excStr gives their str() as an
abstract placeholder. -/
inductive PyExc where
  | clientError (msg : List Char)
  | typeError
  | unicodeDecodeError
  | jsonDecodeError
deriving DecidableEq

/-- str(e) of an exception; the messages of non-ClientError exceptions
are abstracted to fixed placeholders, which no claim inspects. -/
def excStr : PyExc → List Char
  | .clientError m => m
  | .typeError => "TypeError".toList
  | .unicodeDecodeError => "UnicodeDecodeError".toList
  | .jsonDecodeError => "JSONDecodeError".toList

/-- Python equality of a json value with a str, as used by list
membership: only a str compares equal to a str. -/
def jsonStrEq : Json → List Char → Bool
  | .str s, k => s == k
  | _, _ => false

/-- Substring test, python k in s for strings. -/
def listIsSubstr (k : List Char) : List Char → Bool
  | [] => k.isEmpty
  | s@(_ :: rest) => k.isPrefixOf s || listIsSubstr k rest

/-- The python in operator with a string on the left. -/
def pyContains (k : List Char) : Json → Except PyExc Bool
  | .obj kvs => .ok (kvs.any (fun p => p.1 == k))
  | .arr xs => .ok (xs.any (fun x => jsonStrEq x k))
  | .str s => .ok (listIsSubstr k s)
  | _ => .error .typeError

/-- Python len. -/
def pyLen : Json → Except PyExc Nat
  | .obj kvs => .ok kvs.length
  | .arr xs => .ok xs.length
  | .str s => .ok s.length
  | _ => .error .typeError

/-- Python subscription with a string key: dict lookup (KeyError if
absent); TypeError for every other type. -/
def pyGetKey : Json → List Char → Except PyExc Json
  | .obj kvs, k =>
    match dictLookup kvs k with
    | some v => .ok v
    | none => .error .typeError
  | _, _ => .error .typeError

/-- Python subscription with index 0: first element of a list, first
character of a str (IndexError when empty); a dict raises KeyError (json
keys are strings, so key 0 is never present); TypeError otherwise. -/
def pyGetIdx0 : Json → Except PyExc Json
  | .arr (x :: _) => .ok x
  | .arr [] => .error .typeError
  | .str (c :: _) => .ok (.str [c])
  | .str [] => .error .typeError
  | _ => .error .typeError

/-- Python truthiness of a json value. -/
def truthy : Json → Bool
  | .null => false
  | .bool b => b
  | .num n => n != 0
  | .fnum m _ => m != 0
  | .str s => !s.isEmpty
  | .arr xs => !xs.isEmpty
  | .obj kvs => !kvs.isEmpty
  | .nan => true
  | .inf _ => true

/-! ### The stream decoder of stream_chat (lines 118-182) -/

/-- One (role, content) pair yielded by stream_chat.  The role is the
literal "assistant"; the content is the delta value carried verbatim
(the code does not check its type). -/
def Event := List Char × Json

/-- The SSE event marker of line 136. -/
def dataMarker : List Char := "data: ".toList
/-- The termination sentinel of line 140. -/
def doneToken : List Char := "[DONE]".toList
/-- The fixed role of every emitted event (line 152). -/
def assistantRole : List Char := "assistant".toList
/-- Key "choices". -/
def choicesKey : List Char := "choices".toList
/-- Key "delta". -/
def deltaKey : List Char := "delta".toList
/-- Key "content". -/
def contentKey : List Char := "content".toList

/-- Python str.strip() whitespace (the ASCII subset; the claims exercise
no other whitespace code points). -/
def isPySpace (c : Char) : Bool :=
  c = ' ' || c = '\t' || c = '\n' || c = '\r' || c = '\x0b' || c = '\x0c'

/-- Python str.strip(): drop leading and trailing whitespace. -/
def pyStrip (s : List Char) : List Char :=
  ((s.dropWhile isPySpace).reverse.dropWhile isPySpace).reverse

/-- The shape check and yield of lines 145-152, applied to one parsed
document: condition "choices" in response and len(response["choices"])
greater than zero and "delta" in response["choices"][0], then delta =
response["choices"][0]["delta"], then if "content" in delta and
delta["content"] is truthy, yield ("assistant", delta["content"]).
Evaluation order and short-circuiting follow the source; any TypeError,
KeyError or IndexError raised by these dynamic operations escapes (only
json.JSONDecodeError is caught at line 153). -/
def extract_event (response : Json) : Except PyExc (Option Event) :=
  match pyContains choicesKey response with
  | .error e => .error e
  | .ok false => .ok none
  | .ok true =>
    match pyGetKey response choicesKey with
    | .error e => .error e
    | .ok choices =>
      match pyLen choices with
      | .error e => .error e
      | .ok n =>
        if n = 0 then .ok none
        else
          match pyGetIdx0 choices with
          | .error e => .error e
          | .ok c0 =>
            match pyContains deltaKey c0 with
            | .error e => .error e
            | .ok false => .ok none
            | .ok true =>
              match pyGetKey c0 deltaKey with
              | .error e => .error e
              | .ok delta =>
                match pyContains contentKey delta with
                | .error e => .error e
                | .ok false => .ok none
                | .ok true =>
                  match pyGetKey delta contentKey with
                  | .error e => .error e
                  | .ok content =>
                    if truthy content then .ok (some (assistantRole, content))
                    else .ok none

/-- The body of the while loop applied to one extracted line (lines
129-155): strip, discard empty lines, discard lines without the
"data: " marker, take the payload after the marker and strip it, skip
the [DONE] sentinel, parse as JSON swallowing json.JSONDecodeError, then
run the shape check. -/
def process_line (rawLine : List Char) : Except PyExc (Option Event) :=
  let line := pyStrip rawLine
  if line.isEmpty then .ok none
  else if dataMarker.isPrefixOf line then
    let json_str := pyStrip (line.drop 6)
    if json_str = doneToken then .ok none
    else
      match json_loads json_str with
      | none => .ok none
      | some response => extract_event response
  else .ok none

/-- buffer.split("\n", 1): the first line and the remainder, when the
buffer contains a newline. -/
def splitFirstNl : List Char → Option (List Char × List Char)
  | [] => none
  | c :: rest =>
    if c = '\n' then some ([], rest)
    else (splitFirstNl rest).map (fun p => (c :: p.1, p.2))

/-- The while loop of lines 127-155, with explicit fuel (each iteration
consumes at least the newline, so the buffer length bounds the number of
iterations).  Returns the events yielded in order, the remaining buffer,
and the first escaping exception if any (processing stops there, as the
raise unwinds the loop). -/
def drainF : Nat → List Char → List Event × List Char × Option PyExc
  | 0, buffer => ([], buffer, none)
  | fuel + 1, buffer =>
    match splitFirstNl buffer with
    | none => ([], buffer, none)
    | some (line, rest) =>
      match process_line line with
      | .error e => ([], rest, some e)
      | .ok none => drainF fuel rest
      | .ok (some ev) =>
        let (evs, b, er) := drainF fuel rest
        (ev :: evs, b, er)

/-- The while loop of lines 127-155 run to completion on a buffer. -/
def drain_lines (buffer : List Char) : List Event × List Char × Option PyExc :=
  drainF buffer.length buffer

/-- chunk.decode("utf-8", errors="ignore") as called at line 123,
presented as a fallible operation so that the UnicodeDecodeError handler
of lines 157-159 can be written; with the ignore handler CPython's utf-8
decoder never raises, which the embedding renders by always returning ok. -/
def chunk_decode (c : List Nat) : Except PyExc (List Char) :=
  .ok (utf8DecodeIgnore c)

/-- The chunk loop of lines 120-159 over the raw chunks: decode each
chunk (skipping the chunk if decoding raised UnicodeDecodeError, lines
157-159), append to the buffer, drain complete lines; an exception
escaping line processing unwinds the whole loop. -/
def feed_bytes : List (List Nat) → List Char → List Event × List Char × Option PyExc
  | [], buffer => ([], buffer, none)
  | c :: cs, buffer =>
    match chunk_decode c with
    | .error _ => feed_bytes cs buffer
    | .ok text =>
      match drain_lines (buffer ++ text) with
      | (evs, b, some e) => (evs, b, some e)
      | (evs, b, none) =>
        let (evs2, b2, er2) := feed_bytes cs b
        (evs ++ evs2, b2, er2)

/-- The chunk loop on already-decoded texts; feed_bytes factors through
it because chunk decoding is total. -/
def feed : List (List Char) → List Char → List Event × List Char × Option PyExc
  | [], buffer => ([], buffer, none)
  | t :: ts, buffer =>
    match drain_lines (buffer ++ t) with
    | (evs, b, some e) => (evs, b, some e)
    | (evs, b, none) =>
      let (evs2, b2, er2) := feed ts b
      (evs ++ evs2, b2, er2)

/-- The flush of lines 166-182: if the buffer is non-empty and starts
with the marker (no strip before this test, unlike line 129), take the
stripped payload, skip it when empty or the [DONE] sentinel, parse and
run the shape check.  Only json.JSONDecodeError (and the unreachable
UnicodeDecodeError) are swallowed at line 181; a TypeError from the shape
check escapes the generator raw. -/
def flush (buffer : List Char) : List Event × Option PyExc :=
  if buffer.isEmpty then ([], none)
  else if dataMarker.isPrefixOf buffer then
    let json_str := pyStrip (buffer.drop 6)
    if json_str.isEmpty then ([], none)
    else if json_str = doneToken then ([], none)
    else
      match json_loads json_str with
      | none => ([], none)
      | some response =>
        match extract_event response with
        | .error e => ([], some e)
        | .ok none => ([], none)
        | .ok (some ev) => ([ev], none)
  else ([], none)

/-! ### The transport executor (lines 184-238) -/

/-- An HTTP exchange as the transport sees it: the response status, the
body text read on error, the body chunks streamed on success, and an
optional network failure (an aiohttp.ClientError message) raised while
streaming, after the listed chunks. -/
structure HttpResponse where
  status : Nat
  body : List Char
  chunks : List (List Nat)
  midFail : Option (List Char)

/-- A transport interaction: either the connection itself fails with an
aiohttp.ClientError before any response, or a response arrives. -/
inductive TransportInput where
  | netFail (msg : List Char)
  | response (r : HttpResponse)

/-- Message of the status-check ClientError raised at line 224. -/
def reqStatusMsg (status : Nat) (body : List Char) : List Char :=
  "请求失败，状态码: ".toList ++ Nat.toDigits 10 status ++ ", 错误信息: ".toList ++ body

/-- Message of the wrapping ClientError raised at line 233. -/
def reqErrMsg (m : List Char) : List Char := "请求发生错误: ".toList ++ m

/-- The transport executor: on a connection failure, and on a non-200
status, it raises ClientError; the status-check ClientError of line 224
is itself an aiohttp.ClientError, so the handler at line 230 catches and
wraps it again.  On success the chunks are yielded as they arrive (the
guard at line 227 tests the truthiness of the (bytes, bool) tuple from
iter_chunks, which is always a non-empty tuple, so every chunk passes),
followed by a wrapped ClientError if the connection failed mid-stream.
Returns the yielded chunks and the exception terminating the generator,
if any. -/
def make_request (t : TransportInput) : List (List Nat) × Option PyExc :=
  match t with
  | .netFail m => ([], some (.clientError (reqErrMsg m)))
  | .response r =>
    if r.status ≠ 200 then
      ([], some (.clientError (reqErrMsg (reqStatusMsg r.status r.body))))
    else
      (r.chunks, r.midFail.map (fun m => PyExc.clientError (reqErrMsg m)))

/-! ### The two public operations -/

/-- A message dict, role and content and any further string fields. -/
def Message := List (List Char × List Char)

/-- The outbound request body of lines 78-82 and 112-116. -/
structure ChatRequestBody where
  model : List Char
  messages : List Message
  stream : Bool

/-- The identity message preparation of lines 49-58. -/
def prepare_messages (messages : List Message) : List Message := messages

/-- The single request body built by chat (lines 78-82). -/
def chat_request_data (messages : List Message) (model : List Char) : ChatRequestBody :=
  { model := model, messages := prepare_messages messages, stream := false }

/-- The single request body built by stream_chat (lines 112-116). -/
def stream_request_data (messages : List Message) (model : List Char) : ChatRequestBody :=
  { model := model, messages := prepare_messages messages, stream := true }

/-- Message prefix of the ClientError raised by chat at lines 92-95. -/
def chatFailMsg (m : List Char) : List Char := "Chat请求失败: ".toList ++ m

/-- Message prefix of the ClientError raised by stream_chat at lines
161-164. -/
def streamFailMsg (m : List Char) : List Char := "Stream chat请求失败: ".toList ++ m

/-- chat (lines 60-95): drain every chunk, join, decode as strict utf-8,
parse as one JSON document and return it; any exception along the way
(the transport's ClientError, UnicodeDecodeError, json.JSONDecodeError)
is caught at line 92 and re-raised as ClientError with the prefixed
message. -/
def chat (t : TransportInput) : Except PyExc Json :=
  let (chunks, texc) := make_request t
  match texc with
  | some e => .error (.clientError (chatFailMsg (excStr e)))
  | none =>
    match utf8DecodeStrict chunks.flatten with
    | none => .error (.clientError (chatFailMsg (excStr .unicodeDecodeError)))
    | some text =>
      match json_loads text with
      | none => .error (.clientError (chatFailMsg (excStr .jsonDecodeError)))
      | some j => .ok j

/-- The events delivered to the consumer and the exception terminating
the generator, if any. -/
structure StreamResult where
  events : List Event
  error : Option PyExc

/-- The decoding part of stream_chat on the transport's chunk sequence:
run the chunk loop; an exception escaping it, or the transport raising
after its chunks, is caught at line 161 and re-raised as ClientError with
the prefixed message (the flush of lines 166-182 is skipped on that
path); otherwise flush the trailing buffer, whose own shape-check
TypeError would escape raw. -/
def decode_stream (chunks : List (List Nat)) (texc : Option PyExc) : StreamResult :=
  match feed_bytes chunks [] with
  | (evs, _, some e) => ⟨evs, some (.clientError (streamFailMsg (excStr e)))⟩
  | (evs, buf, none) =>
    match texc with
    | some e => ⟨evs, some (.clientError (streamFailMsg (excStr e)))⟩
    | none =>
      let (fevs, fer) := flush buf
      ⟨evs ++ fevs, fer⟩

/-- stream_chat (lines 97-182): issue the request and decode the chunk
stream. -/
def stream_chat (t : TransportInput) : StreamResult :=
  let (chunks, texc) := make_request t
  decode_stream chunks texc

/-- The suffix of a text after its last newline (the whole text when it
has none): the part not yet resolved into a newline-terminated line. -/
def afterLastNl (s : List Char) : List Char :=
  (s.reverse.takeWhile (fun c => c != '\n')).reverse

/-- The chunk loop as it would read without the UnicodeDecodeError
handler of lines 157-159: decode unconditionally.  Comparing it with
feed_bytes shows the handler is dead code. -/
def feed_bytes_noskip : List (List Nat) → List Char → List Event × List Char × Option PyExc
  | [], buffer => ([], buffer, none)
  | c :: cs, buffer =>
    match drain_lines (buffer ++ utf8DecodeIgnore c) with
    | (evs, b, some e) => (evs, b, some e)
    | (evs, b, none) =>
      let (evs2, b2, er2) := feed_bytes_noskip cs b
      (evs ++ evs2, b2, er2)

/-- A complete SSE line whose delta content is the two-byte character
LATIN SMALL LETTER E WITH ACUTE, used to exhibit the effect of a chunk
boundary inside a multi-byte character. -/
def cexLine : List Char :=
  "data: \x7b\"choices\":[\x7b\"delta\":\x7b\"content\":\"é\"\x7d\x7d]\x7d\n".toList

/-- The UTF-8 bytes of cexLine. -/
def cexBytes : List Nat := utf8Encode cexLine

/-- cexBytes up to and including the lead byte 0xC3 of the two-byte
character (the byte at index 39). -/
def cexPart1 : List Nat := cexBytes.take 40

/-- The rest of cexBytes, beginning with the continuation byte 0xA9. -/
def cexPart2 : List Nat := cexBytes.drop 40

/-! ### Framing lemmas: split, drain, append -/

theorem splitFirstNl_eq_none {s : List Char} (h : '\n' ∉ s) :
    splitFirstNl s = none := by
  induction s with
  | nil => rfl
  | cons c rest ih =>
    simp only [List.mem_cons, not_or] at h
    simp only [splitFirstNl]
    rw [if_neg (fun hc => h.1 hc.symm), ih h.2]
    rfl

theorem splitFirstNl_some {s l r : List Char}
    (h : splitFirstNl s = some (l, r)) : s = l ++ '\n' :: r ∧ '\n' ∉ l := by
  induction s generalizing l r with
  | nil => simp [splitFirstNl] at h
  | cons c rest ih =>
    simp only [splitFirstNl] at h
    by_cases hc : c = '\n'
    · rw [if_pos hc] at h
      simp only [Option.some.injEq, Prod.mk.injEq] at h
      obtain ⟨h1, h2⟩ := h
      subst h1
      subst h2
      simp [hc]
    · rw [if_neg hc] at h
      cases hs : splitFirstNl rest with
      | none => rw [hs] at h; simp at h
      | some p =>
        obtain ⟨l2, r2⟩ := p
        rw [hs] at h
        simp only [Option.map_some', Option.some.injEq, Prod.mk.injEq] at h
        obtain ⟨h1, h2⟩ := h
        subst h1
        subst h2
        obtain ⟨hrest, hnl⟩ := ih hs
        refine ⟨by simp [hrest], ?_⟩
        simp only [List.mem_cons, not_or]
        exact ⟨fun hx => hc hx.symm, hnl⟩

theorem splitFirstNl_append_cons {l r : List Char} (hl : '\n' ∉ l) :
    splitFirstNl (l ++ '\n' :: r) = some (l, r) := by
  induction l with
  | nil => simp [splitFirstNl]
  | cons c rest ih =>
    simp only [List.mem_cons, not_or] at hl
    have hstep : (c :: rest) ++ '\n' :: r = c :: (rest ++ '\n' :: r) := rfl
    rw [hstep]
    simp only [splitFirstNl]
    rw [if_neg (fun hc => hl.1 hc.symm), ih hl.2]
    rfl

theorem splitFirstNl_append_some {s t l r : List Char}
    (h : splitFirstNl s = some (l, r)) :
    splitFirstNl (s ++ t) = some (l, r ++ t) := by
  obtain ⟨rfl, hl⟩ := splitFirstNl_some h
  rw [List.append_assoc, List.cons_append]
  exact splitFirstNl_append_cons hl

theorem splitFirstNl_length {s l r : List Char}
    (h : splitFirstNl s = some (l, r)) : r.length < s.length := by
  obtain ⟨rfl, -⟩ := splitFirstNl_some h
  simp only [List.length_append, List.length_cons]
  omega

theorem drainF_nil (f : Nat) : drainF f [] = ([], [], none) := by
  cases f <;> rfl

theorem drainF_fuel :
    ∀ f g (s : List Char), s.length ≤ f → s.length ≤ g → drainF f s = drainF g s := by
  intro f
  induction f with
  | zero =>
    intro g s hf _
    have : s = [] := List.length_eq_zero.mp (Nat.le_zero.mp hf)
    subst this
    rw [drainF_nil, drainF_nil]
  | succ f ih =>
    intro g s hf hg
    match g with
    | 0 =>
      have : s = [] := List.length_eq_zero.mp (Nat.le_zero.mp hg)
      subst this
      rw [drainF_nil, drainF_nil]
    | g + 1 =>
      simp only [drainF]
      cases hs : splitFirstNl s with
      | none => rfl
      | some p =>
        obtain ⟨l, r⟩ := p
        dsimp only
        have hr : r.length < s.length := splitFirstNl_length hs
        have h1 : r.length ≤ f := by omega
        have h2 : r.length ≤ g := by omega
        cases hp : process_line l with
        | error e => rfl
        | ok o =>
          cases o with
          | none => exact ih g r h1 h2
          | some ev => rw [ih g r h1 h2]

/-- Unfolding equation of the while loop at its natural fuel. -/
theorem drain_lines_eq (s : List Char) :
    drain_lines s =
      match splitFirstNl s with
      | none => ([], s, none)
      | some (line, rest) =>
        match process_line line with
        | .error e => ([], rest, some e)
        | .ok none => drain_lines rest
        | .ok (some ev) =>
          let (evs, b, er) := drain_lines rest
          (ev :: evs, b, er) := by
  match s with
  | [] => rfl
  | c :: cs =>
    show drainF (cs.length + 1) (c :: cs) = _
    simp only [drainF]
    cases hs : splitFirstNl (c :: cs) with
    | none => rfl
    | some p =>
      obtain ⟨l, r⟩ := p
      dsimp only
      have hr : r.length < cs.length + 1 := splitFirstNl_length hs
      have heq : drainF cs.length r = drain_lines r :=
        drainF_fuel cs.length r.length r (by omega) (Nat.le_refl _)
      cases hp : process_line l with
      | error e => rfl
      | ok o =>
        cases o with
        | none => exact heq
        | some ev => rw [heq]

theorem drain_lines_of_noNl {s : List Char} (h : '\n' ∉ s) :
    drain_lines s = ([], s, none) := by
  rw [drain_lines_eq, splitFirstNl_eq_none h]

/-- Processing a concatenation: run on the first part; on an exception
the rest is never reached, otherwise continue from the leftover buffer.
This is the key fact behind fragmentation invariance. -/
theorem drain_lines_append (s t : List Char) :
    drain_lines (s ++ t) =
      match drain_lines s with
      | (evs, b, some e) => (evs, b ++ t, some e)
      | (evs, b, none) =>
        let (evs2, b2, er2) := drain_lines (b ++ t)
        (evs ++ evs2, b2, er2) := by
  have main : ∀ n (s : List Char), s.length ≤ n → ∀ t : List Char,
      drain_lines (s ++ t) =
        match drain_lines s with
        | (evs, b, some e) => (evs, b ++ t, some e)
        | (evs, b, none) =>
          let (evs2, b2, er2) := drain_lines (b ++ t)
          (evs ++ evs2, b2, er2) := by
    intro n
    induction n with
    | zero =>
      intro s hs t
      have : s = [] := List.length_eq_zero.mp (Nat.le_zero.mp hs)
      subst this
      simp only [List.nil_append]
      rw [drain_lines_eq ([] : List Char)]
      rfl
    | succ n ih =>
      intro s hs t
      cases hsplit : splitFirstNl s with
      | none =>
        rw [drain_lines_eq s, hsplit]
        dsimp only
        rcases hd : drain_lines (s ++ t) with ⟨evs2, b2, er2⟩
        simp
      | some p =>
        obtain ⟨l, r⟩ := p
        have hr : r.length < s.length := splitFirstNl_length hsplit
        have hsplit2 := splitFirstNl_append_some (t := t) hsplit
        rw [drain_lines_eq (s ++ t), hsplit2, drain_lines_eq s, hsplit]
        dsimp only
        cases hp : process_line l with
        | error e => rfl
        | ok o =>
          cases o with
          | none => exact ih r (by omega) t
          | some ev =>
            rw [ih r (by omega) t]
            rcases hd : drain_lines r with ⟨evs, b, er⟩
            cases er with
            | none =>
              rcases hd2 : drain_lines (b ++ t) with ⟨evs2, b2, er2⟩
              rfl
            | some e => rfl
  exact main s.length s (Nat.le_refl _) t

/-! ### The buffer invariant -/

theorem splitFirstNl_none_noNl {s : List Char} (h : splitFirstNl s = none) :
    '\n' ∉ s := by
  induction s with
  | nil => simp
  | cons c rest ih =>
    simp only [splitFirstNl] at h
    by_cases hc : c = '\n'
    · rw [if_pos hc] at h; simp at h
    · rw [if_neg hc] at h
      simp only [List.mem_cons, not_or]
      refine ⟨fun hx => hc hx.symm, ih ?_⟩
      cases hs : splitFirstNl rest with
      | none => rfl
      | some p => rw [hs] at h; simp at h

theorem takeWhile_ne_append (A B : List Char) :
    (A ++ '\n' :: B).takeWhile (fun c => c != '\n') =
      A.takeWhile (fun c => c != '\n') := by
  induction A with
  | nil => simp [List.takeWhile_cons]
  | cons a A ih =>
    by_cases ha : a = '\n' <;>
      simp [List.takeWhile_cons, ha, ih]

theorem afterLastNl_append_nl (a r : List Char) :
    afterLastNl (a ++ '\n' :: r) = afterLastNl r := by
  unfold afterLastNl
  have hrev : (a ++ '\n' :: r).reverse = r.reverse ++ '\n' :: a.reverse := by
    simp [List.reverse_append, List.reverse_cons, List.append_assoc]
  rw [hrev, takeWhile_ne_append]

theorem afterLastNl_of_noNl {s : List Char} (h : '\n' ∉ s) : afterLastNl s = s := by
  unfold afterLastNl
  rw [List.takeWhile_eq_self_iff.mpr, List.reverse_reverse]
  intro a ha
  rw [List.mem_reverse] at ha
  simp only [bne_iff_ne, ne_eq]
  exact fun e => h (by rw [← e]; exact ha)

theorem noNl_afterLastNl (s : List Char) : '\n' ∉ afterLastNl s := by
  unfold afterLastNl
  intro hmem
  rw [List.mem_reverse] at hmem
  have := List.mem_takeWhile_imp hmem
  simp at this

/-- When the while loop finishes without an exception, the remaining
buffer is exactly the suffix of the processed text after its last
newline. -/
theorem drain_lines_buffer :
    ∀ s : List Char, (drain_lines s).2.2 = none →
      (drain_lines s).2.1 = afterLastNl s := by
  have main : ∀ n (s : List Char), s.length ≤ n → (drain_lines s).2.2 = none →
      (drain_lines s).2.1 = afterLastNl s := by
    intro n
    induction n with
    | zero =>
      intro s hs _
      have h0 : s = [] := List.length_eq_zero.mp (Nat.le_zero.mp hs)
      subst h0
      rfl
    | succ n ih =>
      intro s hs herr
      cases hsplit : splitFirstNl s with
      | none =>
        rw [drain_lines_eq s, hsplit]
        exact (afterLastNl_of_noNl (splitFirstNl_none_noNl hsplit)).symm
      | some p =>
        obtain ⟨l, r⟩ := p
        obtain ⟨hseq, -⟩ := splitFirstNl_some hsplit
        have hr : r.length < s.length := splitFirstNl_length hsplit
        rw [drain_lines_eq s, hsplit] at herr ⊢
        dsimp only at herr ⊢
        have hafter : afterLastNl s = afterLastNl r := by
          rw [hseq, afterLastNl_append_nl]
        cases hp : process_line l with
        | error e =>
          rw [hp] at herr
          simp at herr
        | ok o =>
          rw [hp] at herr
          cases o with
          | none =>
            dsimp only at herr ⊢
            rw [hafter]
            exact ih r (by omega) herr
          | some ev =>
            dsimp only at herr ⊢
            rw [hafter]
            exact ih r (by omega) herr
  exact fun s => main s.length s (Nat.le_refl _)

/-- No newline survives in the leftover buffer. -/
theorem drain_lines_buffer_noNl {s : List Char}
    (h : (drain_lines s).2.2 = none) : '\n' ∉ (drain_lines s).2.1 := by
  rw [drain_lines_buffer s h]
  exact noNl_afterLastNl s

/-! ### The chunk loop as a function of the concatenated text -/

/-- The chunk loop factors through per-chunk decoding, because the
decoding step is total. -/
theorem feed_bytes_eq_feed :
    ∀ (chunks : List (List Nat)) (buf : List Char),
      feed_bytes chunks buf = feed (chunks.map utf8DecodeIgnore) buf := by
  intro chunks
  induction chunks with
  | nil => intro buf; rfl
  | cons c cs ih =>
    intro buf
    simp only [feed_bytes, chunk_decode, List.map_cons, feed]
    rcases hd : drain_lines (buf ++ utf8DecodeIgnore c) with ⟨evs, b, er⟩
    cases er with
    | some e => rfl
    | none =>
      dsimp only
      rw [ih b]

/-- The events and the terminating exception of the chunk loop depend
only on the concatenation of the decoded texts, and so does the final
buffer when no exception escapes. -/
theorem feed_flatten :
    ∀ (ts : List (List Char)) (buf : List Char), '\n' ∉ buf →
      (feed ts buf).1 = (drain_lines (buf ++ ts.flatten)).1 ∧
      (feed ts buf).2.2 = (drain_lines (buf ++ ts.flatten)).2.2 ∧
      ((feed ts buf).2.2 = none →
        (feed ts buf).2.1 = (drain_lines (buf ++ ts.flatten)).2.1) := by
  intro ts
  induction ts with
  | nil =>
    intro buf hbuf
    simp only [feed, List.flatten_nil, List.append_nil]
    rw [drain_lines_of_noNl hbuf]
    exact ⟨rfl, rfl, fun _ => rfl⟩
  | cons t ts ih =>
    intro buf hbuf
    have hflat : buf ++ (t :: ts).flatten = (buf ++ t) ++ ts.flatten := by
      rw [List.flatten_cons, List.append_assoc]
    rw [hflat, drain_lines_append (buf ++ t) ts.flatten]
    simp only [feed]
    rcases hd : drain_lines (buf ++ t) with ⟨evs, b, er⟩
    cases er with
    | some e =>
      dsimp only
      exact ⟨rfl, rfl, fun h => by simp at h⟩
    | none =>
      dsimp only
      have hb : '\n' ∉ b := by
        have h1 : (drain_lines (buf ++ t)).2.2 = none := by rw [hd]
        have h2 := drain_lines_buffer_noNl h1
        rw [hd] at h2
        exact h2
      obtain ⟨ih1, ih2, ih3⟩ := ih b hb
      rcases hf : feed ts b with ⟨evs2, b2, er2⟩
      rw [hf] at ih1 ih2 ih3
      rcases hd2 : drain_lines (b ++ ts.flatten) with ⟨evs3, b3, er3⟩
      rw [hd2] at ih1 ih2 ih3
      dsimp only at ih1 ih2 ih3 ⊢
      subst ih1
      subst ih2
      refine ⟨rfl, rfl, fun h => ?_⟩
      rw [ih3 h]

/-! ### UTF-8 roundtrip: decoding a well-formed encoding -/

theorem utf8Run_cons (st : Utf8State) (b : Nat) (bs : List Nat) :
    utf8Run st (b :: bs) =
      match utf8Step st b with
      | (st2, some ch) => ch :: utf8Run st2 bs
      | (st2, none) => utf8Run st2 bs := rfl

theorem utf8Step_none (b : Nat) : utf8Step none b = utf8StepLead b := rfl

theorem utf8StepLead_ascii {b : Nat} (h : b < 0x80) :
    utf8StepLead b = (none, some (Char.ofNat b)) := by
  rw [utf8StepLead, if_pos h]

theorem utf8StepLead_two {b : Nat} (h1 : 0xC2 ≤ b) (h2 : b ≤ 0xDF) :
    utf8StepLead b = (some (b - 0xC0, 1, 0x80, 0xBF), none) := by
  rw [utf8StepLead, if_neg (by omega),
    if_pos (by simp only [Bool.and_eq_true, decide_eq_true_eq]; exact ⟨h1, h2⟩)]

theorem utf8StepLead_three {b : Nat} (h1 : 0xE0 ≤ b) (h2 : b ≤ 0xEF) :
    utf8StepLead b = (some (b - 0xE0, 2, cont3lo b, cont3hi b), none) := by
  rw [utf8StepLead, if_neg (by omega),
    if_neg (by simp only [Bool.and_eq_true, decide_eq_true_eq]; omega),
    if_pos (by simp only [Bool.and_eq_true, decide_eq_true_eq]; exact ⟨h1, h2⟩)]

theorem utf8StepLead_four {b : Nat} (h1 : 0xF0 ≤ b) (h2 : b ≤ 0xF4) :
    utf8StepLead b = (some (b - 0xF0, 3, cont4lo b, cont4hi b), none) := by
  rw [utf8StepLead, if_neg (by omega),
    if_neg (by simp only [Bool.and_eq_true, decide_eq_true_eq]; omega),
    if_neg (by simp only [Bool.and_eq_true, decide_eq_true_eq]; omega),
    if_pos (by simp only [Bool.and_eq_true, decide_eq_true_eq]; exact ⟨h1, h2⟩)]

theorem utf8Step_cont_last {acc lo hi b : Nat} (h1 : lo ≤ b) (h2 : b ≤ hi) :
    utf8Step (some (acc, 1, lo, hi)) b =
      (none, some (Char.ofNat (acc * 64 + (b - 0x80)))) := by
  show (if lo ≤ b && b ≤ hi then
      if (1 : Nat) = 1 then (none, some (Char.ofNat (acc * 64 + (b - 0x80))))
      else (some (acc * 64 + (b - 0x80), 1 - 1, 0x80, 0xBF), none)
    else utf8StepLead b) = _
  rw [if_pos (by simp only [Bool.and_eq_true, decide_eq_true_eq]; exact ⟨h1, h2⟩),
    if_pos rfl]

theorem utf8Step_cont_more {acc need lo hi b : Nat} (h1 : lo ≤ b) (h2 : b ≤ hi)
    (h3 : need ≠ 1) :
    utf8Step (some (acc, need, lo, hi)) b =
      (some (acc * 64 + (b - 0x80), need - 1, 0x80, 0xBF), none) := by
  show (if lo ≤ b && b ≤ hi then
      if need = 1 then (none, some (Char.ofNat (acc * 64 + (b - 0x80))))
      else (some (acc * 64 + (b - 0x80), need - 1, 0x80, 0xBF), none)
    else utf8StepLead b) = _
  rw [if_pos (by simp only [Bool.and_eq_true, decide_eq_true_eq]; exact ⟨h1, h2⟩),
    if_neg h3]

/-- Decoding an encoded scalar at the head of the byte stream yields
exactly that character and continues behind it. -/
theorem utf8Run_encodeChar (c : Char) (rest : List Nat) :
    utf8Run none (utf8EncodeChar c.toNat ++ rest) = c :: utf8Run none rest := by
  have hofn : Char.ofNat c.toNat = c := Char.ofNat_toNat c
  have hval : c.toNat < 0xD800 ∨ (0xDFFF < c.toNat ∧ c.toNat < 0x110000) := c.valid
  set n := c.toNat with hn
  by_cases h1 : n < 0x80
  · rw [show utf8EncodeChar n = [n] from by rw [utf8EncodeChar, if_pos h1],
      List.singleton_append, utf8Run_cons, utf8Step_none, utf8StepLead_ascii h1, hofn]
  · by_cases h2 : n < 0x800
    · rw [show utf8EncodeChar n = [0xC0 + n / 64, 0x80 + n % 64] from by
        rw [utf8EncodeChar, if_neg h1, if_pos h2]]
      rw [show ([0xC0 + n / 64, 0x80 + n % 64] ++ rest) =
        (0xC0 + n / 64) :: (0x80 + n % 64) :: rest from rfl]
      rw [utf8Run_cons, utf8Step_none, utf8StepLead_two (by omega) (by omega)]
      dsimp only
      rw [utf8Run_cons, utf8Step_cont_last (by omega) (by omega)]
      dsimp only
      rw [show (0xC0 + n / 64 - 0xC0) * 64 + (0x80 + n % 64 - 0x80) = n by omega, hofn]
    · by_cases h3 : n < 0x10000
      · rw [show utf8EncodeChar n =
          [0xE0 + n / 4096, 0x80 + (n / 64) % 64, 0x80 + n % 64] from by
            rw [utf8EncodeChar, if_neg h1, if_neg h2, if_pos h3]]
        rw [show ([0xE0 + n / 4096, 0x80 + (n / 64) % 64, 0x80 + n % 64] ++ rest) =
          (0xE0 + n / 4096) :: (0x80 + (n / 64) % 64) :: (0x80 + n % 64) :: rest from rfl]
        have hlo : cont3lo (0xE0 + n / 4096) ≤ 0x80 + (n / 64) % 64 := by
          unfold cont3lo
          split_ifs with h
          · omega
          · omega
        have hhi : 0x80 + (n / 64) % 64 ≤ cont3hi (0xE0 + n / 4096) := by
          unfold cont3hi
          split_ifs with h
          · omega
          · omega
        rw [utf8Run_cons, utf8Step_none, utf8StepLead_three (by omega) (by omega)]
        dsimp only
        rw [utf8Run_cons, utf8Step_cont_more hlo hhi (by omega)]
        dsimp only
        rw [utf8Run_cons, utf8Step_cont_last (by omega) (by omega)]
        dsimp only
        rw [show ((0xE0 + n / 4096 - 0xE0) * 64 + (0x80 + (n / 64) % 64 - 0x80)) * 64 +
          (0x80 + n % 64 - 0x80) = n by omega, hofn]
      · rw [show utf8EncodeChar n =
          [0xF0 + n / 262144, 0x80 + (n / 4096) % 64, 0x80 + (n / 64) % 64, 0x80 + n % 64]
          from by rw [utf8EncodeChar, if_neg h1, if_neg h2, if_neg h3]]
        rw [show ([0xF0 + n / 262144, 0x80 + (n / 4096) % 64, 0x80 + (n / 64) % 64,
            0x80 + n % 64] ++ rest) =
          (0xF0 + n / 262144) :: (0x80 + (n / 4096) % 64) :: (0x80 + (n / 64) % 64) ::
            (0x80 + n % 64) :: rest from rfl]
        have hlo : cont4lo (0xF0 + n / 262144) ≤ 0x80 + (n / 4096) % 64 := by
          unfold cont4lo
          split_ifs with h
          · omega
          · omega
        have hhi : 0x80 + (n / 4096) % 64 ≤ cont4hi (0xF0 + n / 262144) := by
          unfold cont4hi
          split_ifs with h
          · omega
          · omega
        rw [utf8Run_cons, utf8Step_none, utf8StepLead_four (by omega) (by omega)]
        dsimp only
        rw [utf8Run_cons, utf8Step_cont_more hlo hhi (by omega)]
        dsimp only
        rw [utf8Run_cons, utf8Step_cont_more (by omega) (by omega) (by omega)]
        dsimp only
        rw [utf8Run_cons, utf8Step_cont_last (by omega) (by omega)]
        dsimp only
        rw [show (((0xF0 + n / 262144 - 0xF0) * 64 + (0x80 + (n / 4096) % 64 - 0x80)) * 64 +
          (0x80 + (n / 64) % 64 - 0x80)) * 64 + (0x80 + n % 64 - 0x80) = n by omega, hofn]

/-- Decoding with the ignore handler inverts encoding on every string:
well-formed chunks decode to exactly their code points. -/
theorem utf8DecodeIgnore_encode : ∀ s : List Char, utf8DecodeIgnore (utf8Encode s) = s := by
  intro s
  induction s with
  | nil => rfl
  | cons c cs ih =>
    show utf8Run none (utf8Encode (c :: cs)) = c :: cs
    have henc : utf8Encode (c :: cs) = utf8EncodeChar c.toNat ++ utf8Encode cs := by
      unfold utf8Encode
      rw [List.map_cons, List.flatten_cons]
    rw [henc, utf8Run_encodeChar c (utf8Encode cs)]
    show c :: utf8DecodeIgnore (utf8Encode cs) = c :: cs
    rw [ih]

/-! ### Helper lemmas shared by the claim theorems -/

/-- A line whose stripped payload does not parse as JSON is discarded by
the loop body: no event, no exception.  (Lines without the marker, empty
lines and the sentinel are likewise discarded, whatever their payload.) -/
theorem process_line_parse_fail {rawLine : List Char}
    (h : json_loads (pyStrip ((pyStrip rawLine).drop 6)) = none) :
    process_line rawLine = .ok none := by
  unfold process_line
  by_cases h1 : (pyStrip rawLine).isEmpty
  · simp [h1]
  · by_cases h2 : dataMarker.isPrefixOf (pyStrip rawLine)
    · by_cases h3 : pyStrip ((pyStrip rawLine).drop 6) = doneToken
      · simp [h1, h2, h3]
      · simp [h1, h2, h3, h]
    · simp [h1, h2]

theorem any_of_dictLookup {kvs : List (List Char × Json)} {k : List Char} {v : Json}
    (h : dictLookup kvs k = some v) : kvs.any (fun p => p.1 == k) = true := by
  unfold dictLookup at h
  cases hf : kvs.find? (fun p => p.1 == k) with
  | none => rw [hf] at h; simp at h
  | some p =>
    have hm := List.mem_of_find?_eq_some hf
    have hp := List.find?_some hf
    exact List.any_eq_true.mpr ⟨p, hm, hp⟩

theorem pyGetKey_of_dictLookup {kvs : List (List Char × Json)} {k : List Char} {v : Json}
    (h : dictLookup kvs k = some v) : pyGetKey (.obj kvs) k = .ok v := by
  unfold pyGetKey
  dsimp only
  rw [h]

/-! ### Claim theorems -/

/-- C6: a line whose payload after the "data: " marker is not valid JSON
(such as the line data: \x7bnot valid json) yields zero events, raises
nothing, and leaves the processing of everything after its newline — the
event stream and the buffer — exactly as if the line had not appeared. -/
theorem malformed_line_zero_events (bad s : List Char) (hnl : '\n' ∉ bad)
    (hjson : json_loads (pyStrip ((pyStrip bad).drop 6)) = none) :
    process_line bad = .ok none ∧ drain_lines (bad ++ '\n' :: s) = drain_lines s := by
  have hp := process_line_parse_fail hjson
  refine ⟨hp, ?_⟩
  rw [drain_lines_eq (bad ++ '\n' :: s), splitFirstNl_append_cons hnl]
  dsimp only
  rw [hp]

/-- Witness for C6 at the spec's own example line, followed by a
well-formed line whose processing is untouched. -/
theorem malformed_line_zero_events_witness :
    process_line ("data: \x7bnot valid json".toList) = .ok none ∧
    drain_lines ("data: \x7bnot valid json".toList ++ '\n' :: "data: ok".toList) =
      drain_lines ("data: ok".toList) :=
  malformed_line_zero_events ("data: \x7bnot valid json".toList) ("data: ok".toList)
    (by decide) (by rfl)

/-- C9: for a parsed document whose first choice's delta carries a
content key, an event is emitted exactly when the content value is
truthy in python's sense, and the value is carried verbatim without any
type check; in particular the falsy non-strings 0, false, null, the
empty array and the empty object yield no event, while truthy
non-strings (a non-zero number, a non-empty array) are emitted as they
are. -/
theorem delta_content_truthiness :
    (∀ (dkvs : List (List Char × Json)) (c : Json) (cs : List Json),
      dictLookup dkvs contentKey = some c →
      extract_event
          (.obj [(choicesKey, .arr (.obj [(deltaKey, .obj dkvs)] :: cs))]) =
        .ok (if truthy c then some (assistantRole, c) else none)) ∧
    truthy (.num 0) = false ∧ truthy (.bool false) = false ∧
    truthy .null = false ∧ truthy (.arr []) = false ∧ truthy (.obj []) = false ∧
    (∀ n : Int, n ≠ 0 → truthy (.num n) = true) ∧
    (∀ (x : Json) (xs : List Json), truthy (.arr (x :: xs)) = true) := by
  refine ⟨?_, rfl, rfl, rfl, rfl, rfl, ?_, fun x xs => rfl⟩
  · intro dkvs c cs h
    have ha : (dkvs.any fun p => p.1 == contentKey) = true := any_of_dictLookup h
    have hk : pyGetKey (.obj dkvs) contentKey = .ok c := pyGetKey_of_dictLookup h
    have step : extract_event
        (.obj [(choicesKey, .arr (.obj [(deltaKey, .obj dkvs)] :: cs))]) =
        (match pyContains contentKey (.obj dkvs) with
         | .error e => .error e
         | .ok false => .ok none
         | .ok true =>
           match pyGetKey (.obj dkvs) contentKey with
           | .error e => .error e
           | .ok content =>
             if truthy content then .ok (some (assistantRole, content))
             else .ok none) := rfl
    have hc : pyContains contentKey (.obj dkvs) = .ok true := by
      unfold pyContains
      dsimp only
      rw [ha]
    rw [step, hc]
    dsimp only
    rw [hk]
    dsimp only
    cases htc : truthy c <;> simp
  · intro n hn
    simp [truthy, hn]

/-- Witness for C9 at a delta whose content value is the falsy number 0
(no event) — the hypothesis instantiated at a concrete dict. -/
theorem delta_content_truthiness_witness :
    extract_event
        (.obj [(choicesKey, .arr [.obj [(deltaKey, .obj [(contentKey, .num 0)])]])]) =
      .ok none := by
  have h := delta_content_truthiness.1 [(contentKey, .num 0)] (.num 0) [] (by rfl)
  simpa using h

/-- C10: the per-chunk text decoding of line 123 is total — with
errors="ignore" CPython's utf-8 decoder never raises, embedded here as
chunk_decode always returning ok — so the UnicodeDecodeError handler of
lines 157-159 is unreachable and no chunk is ever skipped in its
entirety for encoding reasons: the loop behaves exactly like the same
loop with the handler removed. -/
theorem chunk_decode_total_handler_dead :
    (∀ c : List Nat, chunk_decode c = .ok (utf8DecodeIgnore c)) ∧
    (∀ (chunks : List (List Nat)) (buf : List Char),
      feed_bytes chunks buf = feed_bytes_noskip chunks buf) := by
  refine ⟨fun c => rfl, ?_⟩
  intro chunks
  induction chunks with
  | nil => intro buf; rfl
  | cons c cs ih =>
    intro buf
    simp only [feed_bytes, feed_bytes_noskip, chunk_decode]
    rcases hd : drain_lines (buf ++ utf8DecodeIgnore c) with ⟨evs, b, er⟩
    cases er with
    | some e => rfl
    | none =>
      dsimp only
      rw [ih b]

/-- C3 counterexample: the claim says the error branch is not taken for
any success status, but the code tests status != 200, so the success
status 201 takes the error branch: the transport fails and both chat and
stream_chat fail with it. -/
theorem transport_201_error_cex :
    make_request (.response ⟨201, "created".toList, [], none⟩) =
      ([], some (.clientError (reqErrMsg (reqStatusMsg 201 "created".toList)))) ∧
    (chat (.response ⟨201, "created".toList, [], none⟩)).isOk = false ∧
    (stream_chat (.response ⟨201, "created".toList, [], none⟩)).error.isSome = true :=
  ⟨rfl, rfl, rfl⟩

/-- C3 amended: on every status other than 200 — all non-2xx statuses,
but also 2xx statuses such as 201 — the transport reads the error body
and fails with a ClientError whose message carries the decimal status
and the body text, and the failure surfaces through both chat and
stream_chat with their respective wrapping prefixes; only status 200
avoids the error branch. -/
theorem transport_status_error (r : HttpResponse) :
    (r.status ≠ 200 →
      make_request (.response r) =
        ([], some (.clientError (reqErrMsg (reqStatusMsg r.status r.body)))) ∧
      Nat.toDigits 10 r.status <:+: reqErrMsg (reqStatusMsg r.status r.body) ∧
      r.body <:+: reqErrMsg (reqStatusMsg r.status r.body) ∧
      chat (.response r) =
        .error (.clientError (chatFailMsg (reqErrMsg (reqStatusMsg r.status r.body)))) ∧
      stream_chat (.response r) =
        ⟨[], some (.clientError (streamFailMsg (reqErrMsg (reqStatusMsg r.status r.body))))⟩) ∧
    (r.status = 200 →
      make_request (.response r) =
        (r.chunks, r.midFail.map (fun m => PyExc.clientError (reqErrMsg m)))) := by
  constructor
  · intro h
    have hmk : make_request (.response r) =
        ([], some (.clientError (reqErrMsg (reqStatusMsg r.status r.body)))) := by
      unfold make_request
      dsimp only
      rw [if_pos h]
    refine ⟨hmk, ?_, ?_, ?_, ?_⟩
    · exact ⟨"请求发生错误: ".toList ++ "请求失败，状态码: ".toList,
        ", 错误信息: ".toList ++ r.body, by simp [reqErrMsg, reqStatusMsg]⟩
    · exact ⟨"请求发生错误: ".toList ++ "请求失败，状态码: ".toList ++
        Nat.toDigits 10 r.status ++ ", 错误信息: ".toList, [],
        by simp [reqErrMsg, reqStatusMsg]⟩
    · unfold chat
      rw [hmk]
      rfl
    · unfold stream_chat
      rw [hmk]
      rfl
  · intro h
    unfold make_request
    dsimp only
    rw [if_neg (fun hne => hne h)]

/-- Witness for C3 at the spec's example, status 429 with body "rate
limited", and at a 200 response where the error branch is skipped. -/
theorem transport_status_error_witness :
    (make_request (.response ⟨429, "rate limited".toList, [], none⟩) =
        ([], some (.clientError (reqErrMsg (reqStatusMsg 429 "rate limited".toList)))) ∧
      Nat.toDigits 10 429 <:+: reqErrMsg (reqStatusMsg 429 "rate limited".toList) ∧
      "rate limited".toList <:+: reqErrMsg (reqStatusMsg 429 "rate limited".toList) ∧
      chat (.response ⟨429, "rate limited".toList, [], none⟩) =
        .error (.clientError
          (chatFailMsg (reqErrMsg (reqStatusMsg 429 "rate limited".toList)))) ∧
      stream_chat (.response ⟨429, "rate limited".toList, [], none⟩) =
        ⟨[], some (.clientError
          (streamFailMsg (reqErrMsg (reqStatusMsg 429 "rate limited".toList))))⟩) ∧
    make_request (.response ⟨200, [], [[104]], none⟩) = ([[104]], none) :=
  ⟨(transport_status_error ⟨429, "rate limited".toList, [], none⟩).1 (by decide),
   by
     have h := (transport_status_error ⟨200, [], [[104]], none⟩).2 rfl
     simpa using h⟩

/-- C7: chat builds exactly one request body of the shape
(model, messages, stream := false) with the message list forwarded
verbatim (message preparation is the identity); on a 200 response whose
joined body decodes and parses, it returns the parsed JSON document
unchanged; and every failure it can raise is a single ClientError whose
message wraps the original exception's message behind the chat prefix. -/
theorem chat_request_and_result :
    (∀ (M : List Message) (mdl : List Char),
      chat_request_data M mdl = ⟨mdl, M, false⟩ ∧ prepare_messages M = M) ∧
    (∀ (r : HttpResponse) (text : List Char) (j : Json),
      r.status = 200 → r.midFail = none →
      utf8DecodeStrict r.chunks.flatten = some text → json_loads text = some j →
      chat (.response r) = .ok j) ∧
    (∀ (t : TransportInput) (e : PyExc), chat t = .error e →
      ∃ m, e = .clientError (chatFailMsg m)) := by
  refine ⟨fun M mdl => ⟨rfl, rfl⟩, ?_, ?_⟩
  · intro r text j h200 hmf hdec hjson
    have hmk : make_request (.response r) = (r.chunks, none) := by
      unfold make_request
      dsimp only
      rw [if_neg (fun hne => hne h200), hmf]
      rfl
    unfold chat
    rw [hmk]
    dsimp only
    rw [hdec]
    dsimp only
    rw [hjson]
  · intro t e h
    cases t with
    | netFail m =>
      unfold chat make_request at h
      dsimp only at h
      simp only [Except.error.injEq] at h
      exact ⟨_, h.symm⟩
    | response r =>
      unfold chat make_request at h
      dsimp only at h
      by_cases hs : r.status ≠ 200
      · rw [if_pos hs] at h
        dsimp only at h
        simp only [Except.error.injEq] at h
        exact ⟨_, h.symm⟩
      · rw [if_neg hs] at h
        cases hmf : r.midFail with
        | some m =>
          rw [hmf] at h
          simp only [Option.map_some'] at h
          simp only [Except.error.injEq] at h
          exact ⟨_, h.symm⟩
        | none =>
          rw [hmf] at h
          simp only [Option.map_none'] at h
          cases hdec : utf8DecodeStrict r.chunks.flatten with
          | none =>
            rw [hdec] at h
            dsimp only at h
            simp only [Except.error.injEq] at h
            exact ⟨_, h.symm⟩
          | some text =>
            rw [hdec] at h
            dsimp only at h
            cases hjson : json_loads text with
            | none =>
              rw [hjson] at h
              dsimp only at h
              simp only [Except.error.injEq] at h
              exact ⟨_, h.symm⟩
            | some j =>
              rw [hjson] at h
              dsimp only at h
              exact absurd h (by simp)

/-- Witness for C7: a 200 response delivering the body as two chunks
returns the parsed document. -/
theorem chat_request_and_result_witness :
    chat (.response ⟨200, [],
        [utf8Encode "\x7b\"ok\"".toList, utf8Encode ": [1,2]\x7d".toList], none⟩) =
      .ok (.obj [("ok".toList, .arr [.num 1, .num 2])]) :=
  chat_request_and_result.2.1
    ⟨200, [], [utf8Encode "\x7b\"ok\"".toList, utf8Encode ": [1,2]\x7d".toList], none⟩
    "\x7b\"ok\": [1,2]\x7d".toList (.obj [("ok".toList, .arr [.num 1, .num 2])])
    rfl rfl (by rfl) (by rfl)

/-- C2 counterexample: with a healthy transport (status 200, no network
fault) the single line data: 5 — a decode-level issue: the payload
parses but its shape is unsupported — makes stream_chat raise.  The in
operator applied to the integer raises TypeError, which escapes the
per-line JSON handler and is re-raised wrapped in a ClientError, so
stream_chat does raise for a decode-level issue. -/
theorem stream_chat_decode_raise_cex :
    stream_chat (.response ⟨200, [], [utf8Encode "data: 5\n".toList], none⟩) =
      ⟨[], some (.clientError (streamFailMsg (excStr .typeError)))⟩ ∧
    process_line ("data: 5".toList) = .error .typeError :=
  ⟨rfl, rfl⟩

/-- C2 amended: a transport failure is delivered to the consumer as a
ClientError of the same type whose message is the original message
behind the prefix "Stream chat请求失败: " (wrapped, not the identical
exception object); and stream_chat never raises for an encoding fault
(per-chunk decoding is total) or for a line whose payload fails to
parse as JSON, though a payload that parses to a value the shape check
cannot inspect (such as data: 5) does raise. -/
theorem stream_chat_error_behaviour :
    (∀ m : List Char, stream_chat (.netFail m) =
      ⟨[], some (.clientError (streamFailMsg (reqErrMsg m)))⟩) ∧
    (∀ (chunks : List (List Nat)) (m : List Char),
      (feed_bytes chunks []).2.2 = none →
      stream_chat (.response ⟨200, [], chunks, some m⟩) =
        ⟨(feed_bytes chunks []).1,
          some (.clientError (streamFailMsg (reqErrMsg m)))⟩) ∧
    (∀ rawLine : List Char,
      json_loads (pyStrip ((pyStrip rawLine).drop 6)) = none →
      process_line rawLine = .ok none) ∧
    (∀ c : List Nat, chunk_decode c = .ok (utf8DecodeIgnore c)) := by
  refine ⟨fun m => rfl, ?_, fun rawLine h => process_line_parse_fail h, fun c => rfl⟩
  intro chunks m h
  unfold stream_chat make_request
  dsimp only
  rw [if_neg (fun hne => hne rfl)]
  unfold decode_stream
  rcases hf : feed_bytes chunks [] with ⟨evs, b, er⟩
  rw [hf] at h
  dsimp only at h
  subst h
  dsimp only
  rfl

/-- Witness for C2: a connection failure is wrapped and delivered; a
mid-stream network fault after a clean [DONE] line is wrapped and
delivered after the events; a malformed payload yields no raise. -/
theorem stream_chat_error_behaviour_witness :
    stream_chat (.netFail "boom".toList) =
      ⟨[], some (.clientError (streamFailMsg (reqErrMsg "boom".toList)))⟩ ∧
    stream_chat (.response ⟨200, [],
        [utf8Encode "data: [DONE]\n".toList], some "reset".toList⟩) =
      ⟨[], some (.clientError (streamFailMsg (reqErrMsg "reset".toList)))⟩ ∧
    process_line ("data: \x7bbad".toList) = .ok none :=
  ⟨stream_chat_error_behaviour.1 "boom".toList,
   (stream_chat_error_behaviour.2.1 [utf8Encode "data: [DONE]\n".toList]
      "reset".toList (by rfl)).trans (by rfl),
   stream_chat_error_behaviour.2.2.1 ("data: \x7bbad".toList) (by rfl)⟩

/-- C8 counterexample: the payload 0 parses, its shape is none of the
recognized ones, and the claim says any such line yields no event and no
error; but the membership test on the integer raises, aborting the
stream with a wrapped error. -/
theorem shape_check_raise_cex :
    process_line ("data: 0".toList) = .error .typeError ∧
    stream_chat (.response ⟨200, [], [utf8Encode "data: 0\n".toList], none⟩) =
      ⟨[], some (.clientError (streamFailMsg (excStr .typeError)))⟩ :=
  ⟨rfl, rfl⟩

/-- C8 amended: a [DONE] payload yields no event and no error; a payload
of the recognized shape (choices, first element, delta, non-empty
content string) yields exactly one event with role "assistant" and that
string; the enumerated deficient shapes — an object without choices, an
empty choices array, a first choice object without delta, a delta object
without content, and a falsy content — yield no event and no error; but
payloads whose top-level value does not support the membership test
(numbers, booleans, null) raise instead of being silently ignored. -/
theorem shape_check_cases :
    (∀ rawLine : List Char, pyStrip ((pyStrip rawLine).drop 6) = doneToken →
      process_line rawLine = .ok none) ∧
    process_line ("data: [DONE]".toList) = .ok none ∧
    (∀ (s : List Char) (cs : List Json), s ≠ [] →
      extract_event (.obj [(choicesKey,
          .arr (.obj [(deltaKey, .obj [(contentKey, .str s)])] :: cs))]) =
        .ok (some (assistantRole, .str s))) ∧
    process_line
        ("data: \x7b\"choices\":[\x7b\"delta\":\x7b\"content\":\"Hi\"\x7d\x7d]\x7d".toList) =
      .ok (some (assistantRole, .str "Hi".toList)) ∧
    (∀ kvs : List (List Char × Json),
      (kvs.any fun p => p.1 == choicesKey) = false →
      extract_event (.obj kvs) = .ok none) ∧
    (∀ rest : List (List Char × Json),
      extract_event (.obj ((choicesKey, .arr []) :: rest)) = .ok none) ∧
    (∀ ckvs : List (List Char × Json),
      (ckvs.any fun p => p.1 == deltaKey) = false →
      ∀ cs : List Json,
        extract_event (.obj [(choicesKey, .arr (.obj ckvs :: cs))]) = .ok none) ∧
    (∀ dkvs : List (List Char × Json),
      (dkvs.any fun p => p.1 == contentKey) = false →
      ∀ cs : List Json,
        extract_event (.obj [(choicesKey,
          .arr (.obj [(deltaKey, .obj dkvs)] :: cs))]) = .ok none) ∧
    (∀ (c : Json) (cs : List Json), truthy c = false →
      extract_event (.obj [(choicesKey,
          .arr (.obj [(deltaKey, .obj [(contentKey, c)])] :: cs))]) = .ok none) := by
  refine ⟨?_, rfl, ?_, rfl, ?_, fun rest => rfl, ?_, ?_, ?_⟩
  · intro rawLine h
    unfold process_line
    by_cases h1 : (pyStrip rawLine).isEmpty
    · simp [h1]
    · by_cases h2 : dataMarker.isPrefixOf (pyStrip rawLine)
      · simp [h1, h2, h]
      · simp [h1, h2]
  · intro s cs hs
    cases s with
    | nil => exact absurd rfl hs
    | cons a as => rfl
  · intro kvs h
    have hc : pyContains choicesKey (.obj kvs) = .ok false := by
      unfold pyContains
      dsimp only
      rw [h]
    unfold extract_event
    rw [hc]
  · intro ckvs h cs
    have step : extract_event (.obj [(choicesKey, .arr (.obj ckvs :: cs))]) =
        (match pyContains deltaKey (.obj ckvs) with
         | .error e => .error e
         | .ok false => .ok none
         | .ok true =>
           match pyGetKey (.obj ckvs) deltaKey with
           | .error e => .error e
           | .ok delta =>
             match pyContains contentKey delta with
             | .error e => .error e
             | .ok false => .ok none
             | .ok true =>
               match pyGetKey delta contentKey with
               | .error e => .error e
               | .ok content =>
                 if truthy content then .ok (some (assistantRole, content))
                 else .ok none) := rfl
    have hc : pyContains deltaKey (.obj ckvs) = .ok false := by
      unfold pyContains
      dsimp only
      rw [h]
    rw [step, hc]
  · intro dkvs h cs
    have step : extract_event (.obj [(choicesKey,
        .arr (.obj [(deltaKey, .obj dkvs)] :: cs))]) =
        (match pyContains contentKey (.obj dkvs) with
         | .error e => .error e
         | .ok false => .ok none
         | .ok true =>
           match pyGetKey (.obj dkvs) contentKey with
           | .error e => .error e
           | .ok content =>
             if truthy content then .ok (some (assistantRole, content))
             else .ok none) := rfl
    have hc : pyContains contentKey (.obj dkvs) = .ok false := by
      unfold pyContains
      dsimp only
      rw [h]
    rw [step, hc]
  · intro c cs h
    have step : extract_event (.obj [(choicesKey,
        .arr (.obj [(deltaKey, .obj [(contentKey, c)])] :: cs))]) =
        (if truthy c then .ok (some (assistantRole, c)) else .ok none) := rfl
    rw [step]
    simp [h]

/-- Witness for C8 at concrete instances of every guarded conjunct: the
sentinel line, a one-character content, an object without choices, a
first choice without delta, a delta without content, and a falsy (empty
string) content. -/
theorem shape_check_cases_witness :
    process_line ("data: [DONE]".toList) = .ok none ∧
    extract_event (.obj [(choicesKey,
        .arr [.obj [(deltaKey, .obj [(contentKey, .str ['H'])])]])]) =
      .ok (some (assistantRole, .str ['H'])) ∧
    extract_event (.obj [(deltaKey, .null)]) = .ok none ∧
    extract_event (.obj [(choicesKey, .arr [.obj []])]) = .ok none ∧
    extract_event (.obj [(choicesKey, .arr [.obj [(deltaKey, .obj [])]])]) = .ok none ∧
    extract_event (.obj [(choicesKey,
        .arr [.obj [(deltaKey, .obj [(contentKey, .str [])])]])]) = .ok none :=
  ⟨shape_check_cases.1 ("data: [DONE]".toList) (by rfl),
   shape_check_cases.2.2.1 ['H'] [] (by simp),
   shape_check_cases.2.2.2.2.1 [(deltaKey, .null)] (by rfl),
   shape_check_cases.2.2.2.2.2.2.1 [] (by rfl) [],
   shape_check_cases.2.2.2.2.2.2.2.1 [] (by rfl) [],
   shape_check_cases.2.2.2.2.2.2.2.2 (.str []) [] (by rfl)⟩

/-- The chunk loop on encoded text chunks is the chunk loop on the texts
themselves: per-chunk decoding inverts encoding. -/
theorem feed_bytes_encode (ts : List (List Char)) (buf : List Char) :
    feed_bytes (ts.map utf8Encode) buf = feed ts buf := by
  rw [feed_bytes_eq_feed]
  congr 1
  induction ts with
  | nil => rfl
  | cons t ts ih =>
    simp only [List.map_cons]
    rw [utf8DecodeIgnore_encode, ih]

/-- C5: at every chunk boundary of a decode operation that has not
raised, the buffer holds exactly the suffix after the last newline of
all text decoded so far — every decoded code point since that newline is
retained and nothing else, the only bytes ever dropped being the
undecodable ones removed by the ignore handler (the explicit error
recovery); in particular the buffer never contains a newline. -/
theorem decode_buffer_suffix_invariant (chunks : List (List Nat)) (n : Nat)
    (h : (feed_bytes (chunks.take n) []).2.2 = none) :
    (feed_bytes (chunks.take n) []).2.1 =
      afterLastNl (((chunks.take n).map utf8DecodeIgnore).flatten) ∧
    '\n' ∉ (feed_bytes (chunks.take n) []).2.1 := by
  rw [feed_bytes_eq_feed] at h ⊢
  obtain ⟨-, herr, hbuf⟩ :=
    feed_flatten ((chunks.take n).map utf8DecodeIgnore) [] (by simp)
  have hdrain :
      (drain_lines ([] ++ ((chunks.take n).map utf8DecodeIgnore).flatten)).2.2 = none := by
    rw [← herr]
    exact h
  have hb2 : (feed ((chunks.take n).map utf8DecodeIgnore) []).2.1 =
      afterLastNl (((chunks.take n).map utf8DecodeIgnore).flatten) := by
    rw [hbuf h, drain_lines_buffer _ hdrain, List.nil_append]
  refine ⟨hb2, ?_⟩
  rw [hb2]
  exact noNl_afterLastNl _

/-- Witness for C5 after one chunk whose text is a complete line and a
fragment: the buffer is the fragment. -/
theorem decode_buffer_suffix_invariant_witness :
    (feed_bytes ([utf8Encode "a\nbc".toList].take 1) []).2.1 =
      afterLastNl ((([utf8Encode "a\nbc".toList].take 1).map utf8DecodeIgnore).flatten) ∧
    '\n' ∉ (feed_bytes ([utf8Encode "a\nbc".toList].take 1) []).2.1 :=
  decode_buffer_suffix_invariant [utf8Encode "a\nbc".toList] 1 (by rfl)

/-- C1 counterexample: the same logical byte stream — one SSE line whose
content is the two-byte character é — split as one chunk versus split in
the middle of the character.  Whole, stream_chat emits one event
carrying é; split, each half-chunk's lone é byte is dropped by the
per-chunk ignore decoding, the content becomes the empty (falsy) string,
and stream_chat emits nothing: the event sequences differ. -/
theorem stream_chat_fragmentation_cex :
    cexPart1 ++ cexPart2 = cexBytes ∧
    (stream_chat (.response ⟨200, [], [cexBytes], none⟩)).events =
      [(assistantRole, .str ['é'])] ∧
    (stream_chat (.response ⟨200, [], [cexPart1, cexPart2], none⟩)).events = [] ∧
    (stream_chat (.response ⟨200, [], [cexBytes], none⟩)).events ≠
      (stream_chat (.response ⟨200, [], [cexPart1, cexPart2], none⟩)).events := by
  have h1 : (stream_chat (.response ⟨200, [], [cexBytes], none⟩)).events =
      [(assistantRole, .str ['é'])] := rfl
  have h2 : (stream_chat (.response ⟨200, [], [cexPart1, cexPart2], none⟩)).events =
      [] := rfl
  refine ⟨List.take_append_drop 40 cexBytes, h1, h2, ?_⟩
  rw [h1, h2]
  simp

/-- C1 amended: for every two fragmentations of the same logical stream
whose chunk boundaries lie at UTF-8 character boundaries (each chunk a
well-formed encoding), stream_chat emits identical results — events,
termination and errors; splits inside a multi-byte character are
excluded, because each chunk is decoded independently with undecodable
bytes dropped, which can change or suppress events. -/
theorem stream_chat_fragmentation_invariant (ts1 ts2 : List (List Char))
    (h : ts1.flatten = ts2.flatten) :
    stream_chat (.response ⟨200, [], ts1.map utf8Encode, none⟩) =
      stream_chat (.response ⟨200, [], ts2.map utf8Encode, none⟩) := by
  show decode_stream (ts1.map utf8Encode) none = decode_stream (ts2.map utf8Encode) none
  unfold decode_stream
  rw [feed_bytes_encode ts1 [], feed_bytes_encode ts2 []]
  obtain ⟨e1, er1, b1⟩ := feed_flatten ts1 [] (by simp)
  obtain ⟨e2, er2, b2⟩ := feed_flatten ts2 [] (by simp)
  rw [List.nil_append] at e1 er1 b1 e2 er2 b2
  rw [h] at e1 er1 b1
  rcases h1 : feed ts1 [] with ⟨evs1, buf1, x1⟩
  rcases h2 : feed ts2 [] with ⟨evs2, buf2, x2⟩
  rw [h1] at e1 er1 b1
  rw [h2] at e2 er2 b2
  dsimp only at e1 er1 b1 e2 er2 b2
  subst e1
  subst e2
  subst er1
  subst er2
  cases hY : (drain_lines ts2.flatten).2.2 with
  | some e => rfl
  | none =>
    dsimp only
    rw [b1 hY, b2 hY]

/-- Witness for C1 at two aligned fragmentations of the same text. -/
theorem stream_chat_fragmentation_invariant_witness :
    stream_chat (.response ⟨200, [],
        ["ab".toList, "c\n".toList].map utf8Encode, none⟩) =
      stream_chat (.response ⟨200, [],
        ["a".toList, "bc\n".toList].map utf8Encode, none⟩) :=
  stream_chat_fragmentation_invariant ["ab".toList, "c\n".toList]
    ["a".toList, "bc\n".toList] (by rfl)

/-! ### C4: the flush versus the loop's single-line rules -/

theorem drop_append_ge {α : Type} (A B : List α) (n : Nat) (h : A.length ≤ n) :
    (A ++ B).drop n = B.drop (n - A.length) := by
  induction A generalizing n with
  | nil => simp
  | cons a A ih =>
    cases n with
    | zero => simp at h
    | succ n =>
      simp only [List.cons_append, List.drop_succ_cons, List.length_cons]
      rw [ih n (by simpa using h)]
      simp [Nat.succ_sub_succ]

theorem dropWhile_append_all {α : Type} {p : α → Bool} {A : List α} (B : List α)
    (h : ∀ c ∈ A, p c = true) : (A ++ B).dropWhile p = B.dropWhile p := by
  induction A with
  | nil => rfl
  | cons a A ih =>
    simp only [List.cons_append, List.dropWhile_cons]
    rw [if_pos (h a (List.mem_cons_self a A))]
    exact ih (fun c hc => h c (List.mem_cons_of_mem a hc))

theorem pyStrip_all_space {X : List Char} (h : ∀ c ∈ X, isPySpace c = true) :
    pyStrip X = [] := by
  unfold pyStrip
  rw [List.dropWhile_eq_nil_iff.mpr h]
  rfl

theorem pyStrip_append_spaces (X S : List Char)
    (hS : ∀ c ∈ S, isPySpace c = true) : pyStrip (X ++ S) = pyStrip X := by
  unfold pyStrip
  rw [List.dropWhile_append]
  by_cases hX : (X.dropWhile isPySpace).isEmpty
  · rw [if_pos hX, List.dropWhile_eq_nil_iff.mpr hS,
      List.isEmpty_iff.mp hX]
  · rw [if_neg hX, List.reverse_append,
      dropWhile_append_all _ (fun c hc => hS c (List.mem_reverse.mp hc))]

theorem prefix_of_prefix_append {l A B : List Char} (h : l <+: A ++ B)
    (hl : l.length ≤ A.length) : l <+: A := by
  have h2 : l = (A ++ B).take l.length := List.prefix_iff_eq_take.mp h
  rw [List.take_append_of_le_length hl] at h2
  exact List.prefix_iff_eq_take.mpr h2

/-- C4 counterexample: the loop's single-line rules trim the line before
the marker test; the flush does not.  The trailing fragment that is the
spec's own example line with one leading space yields an event when it
arrives newline-terminated, but the flush discards it, so the flush does
not apply exactly the same rules: a stream ending in that fragment
(after a [DONE] line that leaves the leading space in the buffer) ends
with zero events. -/
theorem flush_not_trimmed_cex :
    process_line
        (" data: \x7b\"choices\":[\x7b\"delta\":\x7b\"content\":\"end\"\x7d\x7d]\x7d".toList) =
      .ok (some (assistantRole, .str "end".toList)) ∧
    flush
        (" data: \x7b\"choices\":[\x7b\"delta\":\x7b\"content\":\"end\"\x7d\x7d]\x7d".toList) =
      ([], none) ∧
    stream_chat (.response ⟨200, [], [utf8Encode
        "data: [DONE]\n data: \x7b\"choices\":[\x7b\"delta\":\x7b\"content\":\"end\"\x7d\x7d]\x7d".toList],
        none⟩) =
      ⟨[], none⟩ :=
  ⟨rfl, rfl, rfl⟩

/-- C4 amended: for a trailing fragment without leading whitespace the
flush applies exactly the loop's single-line rules — trim of the
payload, discard of non-marker fragments, skip of an empty or [DONE]
payload, swallowed JSON parse failure, one event on the recognized shape
(and the same escaping exception on an uninspectable payload); a
fragment with leading whitespace, however, is discarded because the
flush omits the trim before the marker test.  In particular the spec's
example trailing line with no newline still yields exactly one
("assistant", "end") event after the transport closes. -/
theorem flush_single_line_rules :
    (∀ frag : List Char, frag.dropWhile isPySpace = frag →
      flush frag =
        (match process_line frag with
         | .ok none => ([], none)
         | .ok (some ev) => ([ev], none)
         | .error e => ([], some e))) ∧
    stream_chat (.response ⟨200, [], [utf8Encode
        "data: \x7b\"choices\":[\x7b\"delta\":\x7b\"content\":\"end\"\x7d\x7d]\x7d".toList],
        none⟩) =
      ⟨[(assistantRole, .str "end".toList)], none⟩ := by
  refine ⟨?_, rfl⟩
  intro frag h
  have hsplit : frag =
      (frag.reverse.dropWhile isPySpace).reverse ++
        (frag.reverse.takeWhile isPySpace).reverse := by
    conv_lhs => rw [← List.reverse_reverse frag,
      ← List.takeWhile_append_dropWhile (p := isPySpace) (l := frag.reverse)]
    rw [List.reverse_append]
  set R := (frag.reverse.dropWhile isPySpace).reverse with hR
  set S := (frag.reverse.takeWhile isPySpace).reverse with hS
  have hSmem : ∀ c ∈ S, isPySpace c = true := by
    intro c hc
    rw [hS, List.mem_reverse] at hc
    exact List.mem_takeWhile_imp hc
  have hline : pyStrip frag = R := by
    unfold pyStrip
    rw [h]
  cases hRe : R with
  | nil =>
    have hfrag : frag = [] := by
      have hall : ∀ c ∈ frag, isPySpace c = true := by
        intro c hc
        rw [hsplit, hRe, List.nil_append] at hc
        exact hSmem c hc
      have hnil : frag.dropWhile isPySpace = [] := List.dropWhile_eq_nil_iff.mpr hall
      rw [h] at hnil
      exact hnil
    rw [hfrag]
    rfl
  | cons r0 R' =>
    have hfragne : frag.isEmpty = false := by
      rw [hsplit, hRe]
      rfl
    have hRne : R.isEmpty = false := by
      rw [hRe]
      rfl
    by_cases hpre : dataMarker.isPrefixOf R
    · have hpreP : dataMarker <+: R := List.isPrefixOf_iff_prefix.mp hpre
      have hpreF : dataMarker.isPrefixOf frag = true := by
        rw [List.isPrefixOf_iff_prefix, hsplit]
        exact hpreP.trans (List.prefix_append R S)
      have hlen : 6 ≤ R.length := hpreP.length_le
      have hdrop : frag.drop 6 = R.drop 6 ++ S := by
        rw [hsplit, List.drop_append_of_le_length hlen]
      have hj : pyStrip (frag.drop 6) = pyStrip (R.drop 6) := by
        rw [hdrop, pyStrip_append_spaces _ _ hSmem]
      unfold flush process_line
      rw [hline]
      simp only [hfragne, hRne, hpreF, hpre, hj, Bool.false_eq_true, if_false, if_true]
      by_cases hdone : pyStrip (R.drop 6) = doneToken
      · have hde : doneToken.isEmpty = false := rfl
        simp only [hdone, hde, Bool.false_eq_true, if_false, if_pos rfl]
        simp
      · by_cases hemp : (pyStrip (R.drop 6)).isEmpty
        · have hjnil : pyStrip (R.drop 6) = [] := List.isEmpty_iff.mp hemp
          have hjd : json_loads ([] : List Char) = none := rfl
          simp only [hjnil, List.isEmpty_nil, if_true, if_neg (by decide : ¬([] : List Char) = doneToken), hjd]
        · simp only [hemp, Bool.false_eq_true, if_false, if_neg hdone]
          cases hjl : json_loads (pyStrip (R.drop 6)) with
          | none => rfl
          | some resp =>
            dsimp only
            cases hev : extract_event resp with
            | error e => rfl
            | ok o =>
              cases o with
              | none => rfl
              | some ev => rfl
    · have hpreb : dataMarker.isPrefixOf R = false := by
        revert hpre
        cases dataMarker.isPrefixOf R <;> simp
      have hproc : process_line frag = .ok none := by
        unfold process_line
        rw [hline]
        simp only [hRne, hpreb, Bool.false_eq_true, if_false]
      rw [hproc]
      unfold flush
      simp only [hfragne, Bool.false_eq_true, if_false]
      by_cases hpf : dataMarker.isPrefixOf frag
      · have hlenR : R.length < 6 := by
          by_contra hge
          push_neg at hge
          have hp2 : dataMarker <+: R :=
            prefix_of_prefix_append
              (by rw [← hsplit]; exact List.isPrefixOf_iff_prefix.mp hpf)
              (by rw [show dataMarker.length = 6 from rfl]; exact hge)
          have htrue : dataMarker.isPrefixOf R = true :=
            List.isPrefixOf_iff_prefix.mpr hp2
          rw [hpreb] at htrue
          exact Bool.false_ne_true htrue
        have hjnil : pyStrip (frag.drop 6) = [] := by
          rw [hsplit, drop_append_ge _ _ _ (Nat.le_of_lt hlenR)]
          exact pyStrip_all_space (fun c hc => hSmem c (List.mem_of_mem_drop hc))
        simp only [hpf, if_true, hjnil, List.isEmpty_nil]
      · have hpfb : dataMarker.isPrefixOf frag = false := by
          revert hpf
          cases dataMarker.isPrefixOf frag <;> simp
        simp only [hpfb, Bool.false_eq_true, if_false]

/-- Witness for C4 at a stripped [DONE] fragment: the flush result is
the mapping of the loop's result. -/
theorem flush_single_line_rules_witness :
    flush ("data: [DONE]".toList) =
      (match process_line ("data: [DONE]".toList) with
       | .ok none => ([], none)
       | .ok (some ev) => ([ev], none)
       | .error e => ([], some e)) :=
  flush_single_line_rules.1 ("data: [DONE]".toList) (by rfl)

end OpenAIClient
